import Mathlib

/-!
Shallow embedding of the Umbral proxy re-encryption core
(`umbral/umbral.py`, `umbral/serializable.py`).

The elliptic-curve group used by the code (a prime-order cyclic subgroup
of secp256k1 with generator `g`) is modelled in discrete-logarithm
(exponent) coordinates: a `Point` is the exponent of the generator, an
element of `ZMod p` where `p` is the group order, so that point addition
is `+`, scalar multiplication `Point * BigNum` is `*`, and the generator
`g` is `1`.  A `BigNum` (scalar mod the curve order) is likewise an
element of `ZMod p`; the modular inverse `~d` of `bignum.py` (not among
the sources; modelled from the spec's "scalar invert" over the prime
group order) is `bn_inv d = d ^ (p - 2)`, Fermat's form of the modular
inverse, which agrees with the field inverse `d⁻¹` whenever `p` is prime.
The hash `hash_to_bn` and the key-derivation function `kdf`
(`umbral/utils.py`, not part of the sources here) are abstract function
parameters, and the random draws (`BigNum.gen_rand`) of the Python code
become explicit arguments of the corresponding Lean functions.
-/

set_option maxRecDepth 8000
set_option synthInstance.maxSize 2000

namespace Umbral

/-- Inputs fed to `hash_to_bn`: the Python code hashes mixed lists of
curve points and bignums (and, in the spec's description of the modern
scheme, ASCII domain-separation tags). -/
inductive HashItem (p : ℕ) where
  | pt (P : ZMod p)
  | bn (b : ZMod p)
  | tag (s : String)
deriving DecidableEq

/-- Errors raised by the Python code: `assert cond, msg` raises
`AssertionError(msg)`, `raise ValueError(msg)` raises `ValueError`, and
indexing an empty list raises `IndexError`. -/
inductive UErr where
  | assertionError (msg : String)
  | valueError (msg : String)
  | indexError
deriving DecidableEq

instance {ε α : Type} [DecidableEq ε] [DecidableEq α] : DecidableEq (Except ε α) :=
  fun a b =>
    match a, b with
    | .error x, .error y =>
      if h : x = y then isTrue (by rw [h]) else isFalse (fun hc => h (Except.error.inj hc))
    | .error _, .ok _ => isFalse (fun hc => Except.noConfusion hc)
    | .ok _, .error _ => isFalse (fun hc => Except.noConfusion hc)
    | .ok x, .ok y =>
      if h : x = y then isTrue (by rw [h]) else isFalse (fun hc => h (Except.ok.inj hc))

/-- `UmbralParameters` of `umbral.py`: the independent generators `h` and
`u` (points with unknown discrete log, hence arbitrary exponents here),
together with the externally provided hash-to-scalar and KDF primitives
(`umbral/utils.py` is not among the sources; both are modelled from the
spec as opaque functions).  The generator `g` itself is `Umbral.g` below. -/
structure UmbralParameters (p : ℕ) where
  h : ZMod p
  u : ZMod p
  hash_to_bn : List (HashItem p) → ZMod p
  kdf : ZMod p → ℕ

/-- `params.g`, the fixed group generator; in exponent coordinates it is `1`. -/
def g (p : ℕ) : ZMod p := 1

/-- `KFrag` of `umbral.py` (fields `bn_id`, `bn_key`, `point_eph_ni`,
`point_commitment`, `bn_sig1`, `bn_sig2`). -/
structure KFrag (p : ℕ) where
  bn_id : ZMod p
  bn_key : ZMod p
  point_eph_ni : ZMod p
  point_commitment : ZMod p
  bn_sig1 : ZMod p
  bn_sig2 : ZMod p
deriving DecidableEq

/-- `CapsuleFrag` of `umbral.py`. -/
structure CapsuleFrag (p : ℕ) where
  point_eph_e1 : ZMod p
  point_eph_v1 : ZMod p
  bn_kfrag_id : ZMod p
  point_eph_ni : ZMod p
deriving DecidableEq

/-- A `Capsule` holding Alice's original data `(_point_eph_e,
_point_eph_v, _bn_sig)`, as produced by `PRE.encapsulate`. -/
structure Capsule (p : ℕ) where
  point_eph_e : ZMod p
  point_eph_v : ZMod p
  bn_sig : ZMod p
deriving DecidableEq

/-- A `Capsule` after `_reconstruct` has filled in the primed components,
still carrying Alice's original data (the state in which
`_decapsulate_reencrypted` is called in the re-encryption flow, so that
its `if capsule._point_eph_e:` branch is taken). -/
structure ActivatedCapsule (p : ℕ) where
  point_eph_e : ZMod p
  point_eph_v : ZMod p
  bn_sig : ZMod p
  point_eph_e_prime : ZMod p
  point_eph_v_prime : ZMod p
  point_noninteractive : ZMod p
deriving DecidableEq

/-- `ChallengeResponse` of `umbral.py`. -/
structure ChallengeResponse (p : ℕ) where
  point_eph_e2 : ZMod p
  point_eph_v2 : ZMod p
  point_kfrag_commitment : ZMod p
  point_kfrag_pok : ZMod p
  bn_kfrag_sig1 : ZMod p
  bn_kfrag_sig2 : ZMod p
  bn_sig : ZMod p
deriving DecidableEq

variable {p : ℕ}

/-- Modelled from the spec: the modular inverse `~a` of `bignum.py` (not
among the sources), in Fermat form `a ^ (p - 2)` so that it evaluates by
kernel reduction; for the prime group order `p` it equals the field
inverse `a⁻¹` (see `bn_inv_eq_inv`). -/
def bn_inv (a : ZMod p) : ZMod p := a ^ (p - 2)

/-- Modelled from the spec: `poly_eval(coeffs, x)` of `umbral/utils.py`
(not among the sources) evaluates the polynomial with coefficient list
`coeffs` (constant term first, `f(0) = coeffs[0]`, degree
`len(coeffs) - 1`) at `x`; Horner form. -/
def poly_eval (coeffs : List (ZMod p)) (x : ZMod p) : ZMod p :=
  coeffs.foldr (fun a acc => a + x * acc) 0

/-- Modelled from the spec: `lambda_coeff(id_i, ids)` of
`umbral/utils.py` (not among the sources) is the Lagrange coefficient
`λ_i = ∏_{j ≠ i} x_j / (x_j - x_i)` for interpolation at `0` over the
nodes `ids`. -/
def lambda_coeff (id_i : ZMod p) (ids : List (ZMod p)) : ZMod p :=
  ((ids.filter (fun x => x ≠ id_i)).map (fun id_j => id_j * bn_inv (id_j - id_i))).prod

/-- `Capsule.verify`: checks `g * s == v + e * h` with
`h = hash_to_bn([e, v])`. -/
def Capsule.verify (c : Capsule p) (params : UmbralParameters p) : Bool :=
  let e := c.point_eph_e
  let v := c.point_eph_v
  let s := c.bn_sig
  let h := params.hash_to_bn [.pt e, .pt v]
  decide (g p * s = v + e * h)

/-- `PRE.encapsulate`: the random scalars `priv_r`, `priv_u` drawn inside
the Python function are explicit arguments. Returns `(key, capsule)`. -/
def encapsulate (params : UmbralParameters p) (pub_key : ZMod p)
    (priv_r priv_u : ZMod p) : ℕ × Capsule p :=
  let pub_r := g p * priv_r
  let pub_u := g p * priv_u
  let h := params.hash_to_bn [.pt pub_r, .pt pub_u]
  let s := priv_u + priv_r * h
  let shared_key := pub_key * (priv_r + priv_u)
  let key := params.kdf shared_key
  (key, { point_eph_e := pub_r, point_eph_v := pub_u, bn_sig := s })

/-- `PRE.decapsulate_original`: derives `kdf((e + v) * priv_key)`, then
asserts `capsule.verify()` (an `AssertionError` aborts before the key is
returned). -/
def decapsulate_original (params : UmbralParameters p) (priv_key : ZMod p)
    (capsule : Capsule p) : Except UErr ℕ :=
  let shared_key := (capsule.point_eph_e + capsule.point_eph_v) * priv_key
  let key := params.kdf shared_key
  if capsule.verify params then .ok key
  else .error (.assertionError "Generic Umbral Error")

/-- The `KFrag` built for one share inside the loop of `PRE.split_rekey`:
`id_kfrag` and `y` are the two random scalars drawn for this share. -/
def kfrag_of (params : UmbralParameters p) (priv_a pub_b x : ZMod p)
    (coeff_tail : List (ZMod p)) (id_kfrag y : ZMod p) : KFrag p :=
  let pub_a := g p * priv_a
  let xcomp := g p * x
  let d := params.hash_to_bn [.pt xcomp, .pt pub_b, .pt (pub_b * x)]
  let coeffs := priv_a * bn_inv d :: coeff_tail
  let rk := poly_eval coeffs id_kfrag
  let u1 := params.u * rk
  let z1 := params.hash_to_bn
    [.pt (g p * y), .bn id_kfrag, .pt pub_a, .pt pub_b, .pt u1, .pt xcomp]
  let z2 := y - priv_a * z1
  { bn_id := id_kfrag, bn_key := rk, point_eph_ni := xcomp,
    point_commitment := u1, bn_sig1 := z1, bn_sig2 := z2 }

/-- `PRE.split_rekey(priv_a, pub_b, threshold, N)`.  The random draws are
explicit: `x` is the ephemeral scalar behind the precursor `xcomp`,
`coeff_tail` the `threshold - 1` random higher Shamir coefficients (so
`threshold = coeff_tail.length + 1`), and `shares_rand` the `N` pairs
`(id_kfrag, y)` drawn per share (so `N = shares_rand.length`).
Returns `(rk_shares, vKeys)`. -/
def split_rekey (params : UmbralParameters p) (priv_a pub_b : ZMod p)
    (x : ZMod p) (coeff_tail : List (ZMod p))
    (shares_rand : List (ZMod p × ZMod p)) :
    List (KFrag p) × List (ZMod p) :=
  let xcomp := g p * x
  let d := params.hash_to_bn [.pt xcomp, .pt pub_b, .pt (pub_b * x)]
  let coeffs := priv_a * bn_inv d :: coeff_tail
  let vKeys := coeffs.map (fun coeff => params.h * coeff)
  let rk_shares := shares_rand.map
    (fun s => kfrag_of params priv_a pub_b x coeff_tail s.1 s.2)
  (rk_shares, vKeys)

/-- `KFrag.verify(pub_a, pub_b, params)`: recomputes
`g_y = g * z2 + pub_a * z1` and checks
`z1 == hash_to_bn([g_y, id, pub_a, pub_b, u1, x])`. -/
def KFrag.verify (k : KFrag p) (pub_a pub_b : ZMod p)
    (params : UmbralParameters p) : Bool :=
  let u1 := k.point_commitment
  let z1 := k.bn_sig1
  let z2 := k.bn_sig2
  let x := k.point_eph_ni
  let g_y := g p * z2 + pub_a * z1
  decide (z1 = params.hash_to_bn
    [.pt g_y, .bn k.bn_id, .pt pub_a, .pt pub_b, .pt u1, .pt x])

/-- `KFrag.is_consistent(vKeys, params)`: raises `ValueError` on a `None`
or empty `vKeys` (the `Option` argument models the Python `None`), else
compares `h * key` with `Σ_j vKeys[j] * id^j` computed by the loop over
`vKeys[1:]` with running state `(rh_exp, i_j)`. -/
def KFrag.is_consistent (k : KFrag p) (vKeys : Option (List (ZMod p)))
    (params : UmbralParameters p) : Except UErr Bool :=
  match vKeys with
  | none => .error (.valueError "vKeys must not be empty")
  | some [] => .error (.valueError "vKeys must not be empty")
  | some (vKey0 :: vRest) =>
    let lh_exp := params.h * k.bn_key
    let rh := (vRest.foldl
      (fun (st : ZMod p × ZMod p) vKey => (st.1 + vKey * st.2, st.2 * k.bn_id))
      (vKey0, k.bn_id)).1
    .ok (decide (lh_exp = rh))

/-- `PRE.reencrypt(kFrag, capsule)`: asserts `capsule.verify()` then
returns the `CapsuleFrag` with `e1 = e * rk`, `v1 = v * rk`. -/
def reencrypt (params : UmbralParameters p) (kFrag : KFrag p)
    (capsule : Capsule p) : Except UErr (CapsuleFrag p) :=
  if capsule.verify params then
    .ok { point_eph_e1 := capsule.point_eph_e * kFrag.bn_key,
          point_eph_v1 := capsule.point_eph_v * kFrag.bn_key,
          bn_kfrag_id := kFrag.bn_id,
          point_eph_ni := kFrag.point_eph_ni }
  else .error (.assertionError "Generic Umbral Error")

/-- `PRE.challenge(rk, capsule, cFrag)`: `t` is the random scalar drawn
inside; the trailing `assert capsule.verify()` makes the result fallible. -/
def challenge (params : UmbralParameters p) (rk : KFrag p)
    (capsule : Capsule p) (cFrag : CapsuleFrag p) (t : ZMod p) :
    Except UErr (ChallengeResponse p) :=
  let e := capsule.point_eph_e
  let v := capsule.point_eph_v
  let e1 := cFrag.point_eph_e1
  let v1 := cFrag.point_eph_v1
  let u := params.u
  let u1 := rk.point_commitment
  let e2 := e * t
  let v2 := v * t
  let u2 := u * t
  let h := params.hash_to_bn
    [.pt e, .pt e1, .pt e2, .pt v, .pt v1, .pt v2, .pt u, .pt u1, .pt u2]
  let z3 := t + h * rk.bn_key
  if capsule.verify params then
    .ok { point_eph_e2 := e2, point_eph_v2 := v2, point_kfrag_commitment := u1,
          point_kfrag_pok := u2, bn_kfrag_sig1 := rk.bn_sig1,
          bn_kfrag_sig2 := rk.bn_sig2, bn_sig := z3 }
  else .error (.assertionError "Generic Umbral Error")

/-- `PRE.check_challenge(capsule, cFrag, challenge_resp, pub_a, pub_b)`:
the three checks actually performed by the code (`check31` on the kfrag
signature, `check32` on `E`, `check33` on `U`). -/
def check_challenge (params : UmbralParameters p) (capsule : Capsule p)
    (cFrag : CapsuleFrag p) (challenge_resp : ChallengeResponse p)
    (pub_a pub_b : ZMod p) : Bool :=
  let e := capsule.point_eph_e
  let v := capsule.point_eph_v
  let e1 := cFrag.point_eph_e1
  let v1 := cFrag.point_eph_v1
  let xcomp := cFrag.point_eph_ni
  let kfrag_id := cFrag.bn_kfrag_id
  let e2 := challenge_resp.point_eph_e2
  let v2 := challenge_resp.point_eph_v2
  let u := params.u
  let u1 := challenge_resp.point_kfrag_commitment
  let u2 := challenge_resp.point_kfrag_pok
  let z1 := challenge_resp.bn_kfrag_sig1
  let z2 := challenge_resp.bn_kfrag_sig2
  let z3 := challenge_resp.bn_sig
  let g_y := g p * z2 + pub_a * z1
  let h := params.hash_to_bn
    [.pt e, .pt e1, .pt e2, .pt v, .pt v1, .pt v2, .pt u, .pt u1, .pt u2]
  let check31 := decide (z1 = params.hash_to_bn
    [.pt g_y, .bn kfrag_id, .pt pub_a, .pt pub_b, .pt u1, .pt xcomp])
  let check32 := decide (e * z3 = e2 + e1 * h)
  let check33 := decide (u * z3 = u2 + u1 * h)
  check31 && check32 && check33

/-- `Capsule.attach_cfrag(cfrag)`: `self.cfrags[cfrag.bn_kfrag_id] =
cfrag` on the capsule's id-keyed dict, modelled as an insertion-ordered
association list (overwriting in place preserves the key's position,
as a Python dict does). -/
def attach_cfrag (cfrags : List (ZMod p × CapsuleFrag p))
    (cfrag : CapsuleFrag p) : List (ZMod p × CapsuleFrag p) :=
  if cfrags.any (fun kv => kv.1 = cfrag.bn_kfrag_id) then
    cfrags.map (fun kv => if kv.1 = cfrag.bn_kfrag_id then (kv.1, cfrag) else kv)
  else cfrags ++ [(cfrag.bn_kfrag_id, cfrag)]

/-- `Capsule._reconstruct`: Lagrange combination of the attached cfrags
(`id_cfrag_pairs = list(self.cfrags.items())`); `none` models the
`IndexError` on an empty dict.  Returns the primed components
`(e_prime, v_prime, noninteractive)`. -/
def reconstruct (id_cfrag_pairs : List (ZMod p × CapsuleFrag p)) :
    Option (ZMod p × ZMod p × ZMod p) :=
  match id_cfrag_pairs with
  | [] => none
  | (id_0, cfrag_0) :: rest =>
    if rest.isEmpty then
      some (cfrag_0.point_eph_e1, cfrag_0.point_eph_v1, cfrag_0.point_eph_ni)
    else
      let ids := ((id_0, cfrag_0) :: rest).map Prod.fst
      let lambda_0 := lambda_coeff id_0 ids
      let e0 := cfrag_0.point_eph_e1 * lambda_0
      let v0 := cfrag_0.point_eph_v1 * lambda_0
      let ev := rest.foldl
        (fun (acc : ZMod p × ZMod p) pair =>
          let lambda_i := lambda_coeff pair.1 ids
          (acc.1 + pair.2.point_eph_e1 * lambda_i,
           acc.2 + pair.2.point_eph_v1 * lambda_i))
        (e0, v0)
      some (ev.1, ev.2, cfrag_0.point_eph_ni)

/-- `PRE._decapsulate_reencrypted(pub_key, priv_key, orig_pub_key,
capsule)` on an activated capsule that still carries Alice's original
components (so the `if capsule._point_eph_e:` branch runs and its assert
guards the returned key). -/
def decapsulate_reencrypted (params : UmbralParameters p)
    (pub_key priv_key orig_pub_key : ZMod p)
    (capsule : ActivatedCapsule p) : Except UErr ℕ :=
  let xcomp := capsule.point_noninteractive
  let d := params.hash_to_bn [.pt xcomp, .pt pub_key, .pt (xcomp * priv_key)]
  let shared_key := (capsule.point_eph_e_prime + capsule.point_eph_v_prime) * d
  let key_bytes := params.kdf shared_key
  let e := capsule.point_eph_e
  let v := capsule.point_eph_v
  let s := capsule.bn_sig
  let h := params.hash_to_bn [.pt e, .pt v]
  let inv_d := bn_inv d
  if orig_pub_key * (s * inv_d) = capsule.point_eph_v_prime + capsule.point_eph_e_prime * h
  then .ok key_bytes
  else .error (.assertionError "Generic Umbral Error")

/-- The proxy/Bob loop of the re-encryption flow (as in the repository's
tests): for each kfrag, `reencrypt` and `attach_cfrag` the result onto
the capsule's cfrag dict, starting from the empty dict. -/
def reencrypt_and_attach (params : UmbralParameters p) (capsule : Capsule p)
    (kfrags : List (KFrag p)) :
    Except UErr (List (ZMod p × CapsuleFrag p)) :=
  kfrags.foldlM
    (fun st k => do
      let cFrag ← reencrypt params k capsule
      pure (attach_cfrag st cFrag))
    []

/-- End-to-end opening of a re-encrypted capsule (`Capsule.open` without
memoization): attach the cfrags produced by `reencrypt`, `_reconstruct`,
then `_decapsulate_reencrypted`. -/
def open_reencrypted (params : UmbralParameters p)
    (pub_bob priv_bob pub_alice : ZMod p) (capsule : Capsule p)
    (kfrags : List (KFrag p)) : Except UErr ℕ :=
  Except.bind (reencrypt_and_attach params capsule kfrags) (fun attached =>
    (reconstruct attached).elim (Except.error .indexError) (fun evn =>
      decapsulate_reencrypted params pub_bob priv_bob pub_alice
        { point_eph_e := capsule.point_eph_e,
          point_eph_v := capsule.point_eph_v,
          bn_sig := capsule.bn_sig,
          point_eph_e_prime := evn.1,
          point_eph_v_prime := evn.2.1,
          point_noninteractive := evn.2.2 }))

/-- Modelled from the spec: the hashed "x-coordinate"
`hash_to_scalar(dst="X_COORDINATE", id_i, pk_A, pk_B, X_A)` at which the
spec says the Shamir polynomial is evaluated (the code has no such hash;
this definition follows the spec's words, for comparison). -/
def xcoordinate_hash (params : UmbralParameters p)
    (id_kfrag pk_a pk_b x_a : ZMod p) : ZMod p :=
  params.hash_to_bn [.tag "X_COORDINATE", .bn id_kfrag, .pt pk_a, .pt pk_b, .pt x_a]

/-! ### Byte-level serialization model

Byte strings are `List ℕ`.  The parsers `Point.from_bytes` and
`BigNum.from_bytes` live in `umbral/point.py` / `umbral/bignum.py`,
which are not among the sources; they are abstract function parameters
(`Pt`, `Bn`) applied to the exact slices the code takes. -/

/-- Python slice `data[a:b]`. -/
def pyslice (data : List ℕ) (a b : ℕ) : List ℕ := (data.drop a).take (b - a)

/-- `KFrag.from_bytes(data, curve)`: parses the six fixed slices
`data[0:32] … data[162:194]` and never looks at anything past byte 194. -/
def KFrag_from_bytes {γ δ : Type} (Bn : List ℕ → Except UErr γ)
    (Pt : List ℕ → Except UErr δ) (data : List ℕ) :
    Except UErr (γ × γ × δ × δ × γ × γ) := do
  let id ← Bn (pyslice data 0 32)
  let key ← Bn (pyslice data 32 64)
  let eph_ni ← Pt (pyslice data 64 97)
  let commitment ← Pt (pyslice data 97 130)
  let sig1 ← Bn (pyslice data 130 162)
  let sig2 ← Bn (pyslice data 162 194)
  pure (id, key, eph_ni, commitment, sig1, sig2)

/-- `CapsuleFrag.from_bytes(data, curve)`: parses the four fixed slices
`data[0:33] … data[98:131]`. -/
def CapsuleFrag_from_bytes {γ δ : Type} (Bn : List ℕ → Except UErr γ)
    (Pt : List ℕ → Except UErr δ) (data : List ℕ) :
    Except UErr (δ × δ × γ × δ) := do
  let e1 ← Pt (pyslice data 0 33)
  let v1 ← Pt (pyslice data 33 66)
  let kfrag_id ← Bn (pyslice data 66 98)
  let eph_ni ← Pt (pyslice data 98 131)
  pure (e1, v1, kfrag_id, eph_ni)

/-- `Serializable.from_bytes` of `umbral/serializable.py`: runs the
class's `__take__` (the abstract `take_` here) and raises `ValueError`
when bytes remain. -/
def Serializable_from_bytes {γ : Type}
    (take_ : List ℕ → Except UErr (γ × List ℕ)) (data : List ℕ) :
    Except UErr γ :=
  match take_ data with
  | .error e => .error e
  | .ok (obj, remainder) =>
    if remainder.length ≠ 0 then
      .error (.valueError "bytes remaining after deserializing")
    else .ok obj

/-- `Serializable.__take_bytes__`: raises `ValueError` when fewer than
`size` bytes are available. -/
def take_bytes (data : List ℕ) (size : ℕ) :
    Except UErr (List ℕ × List ℕ) :=
  if data.length < size then
    .error (.valueError "cannot take bytes")
  else .ok (data.take size, data.drop size)

/-- `Capsule.to_bytes`: `e.to_bytes() + v.to_bytes() + s.to_bytes()`,
with the point/scalar serializers abstract (`F`, `G`). -/
def Capsule_to_bytes (F G : ZMod p → List ℕ) (c : Capsule p) : List ℕ :=
  F c.point_eph_e ++ F c.point_eph_v ++ G c.bn_sig

/-- `Capsule.__bytes__`: the method body evaluates `self.to_bytes()` but
has no `return` statement, so the call returns Python's `None`. -/
def Capsule__bytes__ (F G : ZMod p → List ℕ) (c : Capsule p) :
    Option (List ℕ) :=
  let _to_bytes_result := Capsule_to_bytes F G c
  none

/-- `Capsule.from_original_bytes(data, curve)`: parses the three fixed
slices `data[0:33]`, `data[33:66]`, `data[66:98]`. -/
def from_original_bytes {γ δ : Type} (Pt : List ℕ → Except UErr δ)
    (Bn : List ℕ → Except UErr γ) (data : List ℕ) :
    Except UErr (δ × δ × γ) := do
  let eph_e ← Pt (pyslice data 0 33)
  let eph_v ← Pt (pyslice data 33 66)
  let sig ← Bn (pyslice data 66 98)
  pure (eph_e, eph_v, sig)

/-- The polynomial with coefficient list `l` (constant term first);
proof-only device relating `poly_eval` to Mathlib's `Polynomial`. -/
noncomputable def listPoly (l : List (ZMod p)) : Polynomial (ZMod p) :=
  ∑ i : Fin l.length, Polynomial.C (l.get i) * Polynomial.X ^ (i : ℕ)

/-! ### A concrete instantiation (group order 13, explicit hash)

Used by the closed witnesses and counterexamples below. -/

instance : Fact (Nat.Prime 13) := ⟨by norm_num⟩

/-- A concrete stand-in for `hash_to_bn`'s input encoding at order 13. -/
def hval13 : HashItem 13 → ZMod 13
  | .pt P => P
  | .bn b => b + 7
  | .tag s => (s.length : ZMod 13)

/-- A concrete stand-in hash at order 13 (base-2 linear combination of
the encoded inputs, so it is injective in each coordinate). -/
def hash13 (l : List (HashItem 13)) : ZMod 13 :=
  l.foldl (fun acc it => 2 * acc + hval13 it) 1

/-- Concrete parameters at order 13. -/
def P13 : UmbralParameters 13 :=
  { h := 7, u := 3, hash_to_bn := hash13, kdf := fun z => z.val }

/-- A concrete kfrag: `split_rekey` share for `priv_a = 2`, `pub_b = 3`,
`x = 5`, higher coefficient `6` (threshold 2), share randoms `(4, 7)`. -/
def kf13 : KFrag 13 := kfrag_of P13 2 3 5 [6] 4 7

/-- A concrete capsule: `encapsulate` under `pub_a = g * 2` with
ephemerals `priv_r = 3`, `priv_u = 1`. -/
def cap13 : Capsule 13 := (encapsulate P13 (g 13 * 2) 3 1).2

/-- The honest re-encryption of `cap13` under `kf13`. -/
def cf13 : CapsuleFrag 13 :=
  { point_eph_e1 := cap13.point_eph_e * kf13.bn_key,
    point_eph_v1 := cap13.point_eph_v * kf13.bn_key,
    bn_kfrag_id := kf13.bn_id,
    point_eph_ni := kf13.point_eph_ni }

/-- The challenge hash recomputed by `check_challenge` for `cap13`,
`cf13` and the doctored response `ch13` below (prover randomness
`t = 1`, claimed `V2 = 2` instead of the honest `v * t = 1`). -/
def h13 : ZMod 13 :=
  P13.hash_to_bn
    [.pt cap13.point_eph_e, .pt cf13.point_eph_e1, .pt (cap13.point_eph_e * 1),
     .pt cap13.point_eph_v, .pt cf13.point_eph_v1, .pt 2,
     .pt P13.u, .pt kf13.point_commitment, .pt (P13.u * 1)]

/-- A challenge response that is honest except for its `V2` component
(`2` instead of `v * t = 1`), with `z3` computed against the doctored
hash so that the `E` and `U` equations still hold. -/
def ch13 : ChallengeResponse 13 :=
  { point_eph_e2 := cap13.point_eph_e * 1,
    point_eph_v2 := 2,
    point_kfrag_commitment := kf13.point_commitment,
    point_kfrag_pok := P13.u * 1,
    bn_kfrag_sig1 := kf13.bn_sig1,
    bn_kfrag_sig2 := kf13.bn_sig2,
    bn_sig := 1 + h13 * kf13.bn_key }

/-! ### Basic lemmas -/

/-- Over the prime group order, the Fermat-form modular inverse agrees
with the field inverse on nonzero scalars. -/
theorem bn_inv_eq_inv [Fact p.Prime] (a : ZMod p) (ha : a ≠ 0) :
    bn_inv a = a⁻¹ := by
  have h1 : a ^ (p - 1) = 1 := ZMod.pow_card_sub_one_eq_one ha
  have hs : p - 1 = (p - 2) + 1 := by
    have h2 : 2 ≤ p := (Fact.out : p.Prime).two_le
    omega
  rw [hs, pow_succ] at h1
  rw [bn_inv]
  exact eq_inv_of_mul_eq_one_left h1

/-- A capsule freshly produced by `encapsulate` passes `Capsule.verify`. -/
theorem encapsulate_verify (params : UmbralParameters p) (pub_key priv_r priv_u : ZMod p) :
    ((encapsulate params pub_key priv_r priv_u).2).verify params = true := by
  simp only [encapsulate, Capsule.verify, decide_eq_true_eq, g]
  ring

/-- Unfolding `reencrypt` on a verifying capsule. -/
theorem reencrypt_of_verify (params : UmbralParameters p) (kFrag : KFrag p)
    (capsule : Capsule p) (hv : capsule.verify params = true) :
    reencrypt params kFrag capsule =
      .ok { point_eph_e1 := capsule.point_eph_e * kFrag.bn_key,
            point_eph_v1 := capsule.point_eph_v * kFrag.bn_key,
            bn_kfrag_id := kFrag.bn_id,
            point_eph_ni := kFrag.point_eph_ni } := by
  simp [reencrypt, hv]

/-- Every kfrag produced by `split_rekey` is `kfrag_of` at one of the
per-share random pairs. -/
theorem mem_split_rekey (params : UmbralParameters p) (priv_a pub_b x : ZMod p)
    (coeff_tail : List (ZMod p)) (shares_rand : List (ZMod p × ZMod p))
    (k : KFrag p)
    (hk : k ∈ (split_rekey params priv_a pub_b x coeff_tail shares_rand).1) :
    ∃ s ∈ shares_rand, k = kfrag_of params priv_a pub_b x coeff_tail s.1 s.2 := by
  simp only [split_rekey, List.mem_map] at hk
  obtain ⟨s, hs, hk⟩ := hk
  exact ⟨s, hs, hk.symm⟩

/-- Field view of the kfrags produced by `split_rekey`: the key is the
Shamir polynomial evaluated at the id, and the precursor is `g * x`. -/
theorem split_rekey_fields (params : UmbralParameters p) (priv_a pub_b x : ZMod p)
    (coeff_tail : List (ZMod p)) (shares_rand : List (ZMod p × ZMod p))
    (k : KFrag p)
    (hk : k ∈ (split_rekey params priv_a pub_b x coeff_tail shares_rand).1) :
    k.bn_key = poly_eval
        (priv_a * bn_inv (params.hash_to_bn
          [.pt (g p * x), .pt pub_b, .pt (pub_b * x)]) :: coeff_tail)
        k.bn_id
    ∧ k.point_eph_ni = g p * x := by
  obtain ⟨s, _, rfl⟩ := mem_split_rekey params priv_a pub_b x coeff_tail shares_rand k hk
  exact ⟨rfl, rfl⟩

/-! ### C2 — encapsulate / decapsulate_original round trip -/

/-- C2: for a public key `pk = g * sk`, `decapsulate_original(sk, capsule)`
returns exactly the key produced by `encapsulate(pk)`, and that key is the
KDF of `sk * (E + V)`. -/
theorem decapsulate_original_roundtrip (params : UmbralParameters p)
    (sk priv_r priv_u : ZMod p) :
    decapsulate_original params sk (encapsulate params (g p * sk) priv_r priv_u).2
      = .ok (encapsulate params (g p * sk) priv_r priv_u).1
    ∧ (encapsulate params (g p * sk) priv_r priv_u).1
      = params.kdf (sk *
          ((encapsulate params (g p * sk) priv_r priv_u).2.point_eph_e
            + (encapsulate params (g p * sk) priv_r priv_u).2.point_eph_v)) := by
  constructor
  · simp only [decapsulate_original,
      encapsulate_verify params (g p * sk) priv_r priv_u, if_true]
    simp only [encapsulate, g]
    congr 2
    ring
  · simp only [encapsulate, g]
    congr 1
    ring

/-! ### C7 — reencrypt -/

/-- C7: `reencrypt(kfrag, capsule)` fails (with the code's
`AssertionError("Generic Umbral Error")`, the failure the spec's error
taxonomy calls `InvalidCapsule`) exactly when `capsule.verify()` is
false; otherwise it returns the `CapsuleFrag` with `E1 = rk * E`,
`V1 = rk * V` and the kfrag's id and precursor unchanged. -/
theorem reencrypt_spec (params : UmbralParameters p) (kFrag : KFrag p)
    (capsule : Capsule p) :
    (reencrypt params kFrag capsule
        = .error (.assertionError "Generic Umbral Error")
      ↔ capsule.verify params = false)
    ∧ ∀ cFrag, reencrypt params kFrag capsule = .ok cFrag →
        cFrag.point_eph_e1 = capsule.point_eph_e * kFrag.bn_key
        ∧ cFrag.point_eph_v1 = capsule.point_eph_v * kFrag.bn_key
        ∧ cFrag.bn_kfrag_id = kFrag.bn_id
        ∧ cFrag.point_eph_ni = kFrag.point_eph_ni := by
  constructor
  · by_cases hv : capsule.verify params = true <;> simp [reencrypt, hv]
  · intro cFrag h
    by_cases hv : capsule.verify params = true
    · rw [reencrypt_of_verify params kFrag capsule hv] at h
      cases h
      exact ⟨rfl, rfl, rfl, rfl⟩
    · simp [reencrypt, hv] at h

/-! ### Projections of a generated kfrag -/

theorem kfrag_of_bn_id (params : UmbralParameters p) (priv_a pub_b x : ZMod p)
    (coeff_tail : List (ZMod p)) (id_kfrag y : ZMod p) :
    (kfrag_of params priv_a pub_b x coeff_tail id_kfrag y).bn_id = id_kfrag := rfl

theorem kfrag_of_bn_key (params : UmbralParameters p) (priv_a pub_b x : ZMod p)
    (coeff_tail : List (ZMod p)) (id_kfrag y : ZMod p) :
    (kfrag_of params priv_a pub_b x coeff_tail id_kfrag y).bn_key
      = poly_eval (priv_a * bn_inv (params.hash_to_bn
          [.pt (g p * x), .pt pub_b, .pt (pub_b * x)]) :: coeff_tail)
          id_kfrag := rfl

theorem kfrag_of_commitment (params : UmbralParameters p) (priv_a pub_b x : ZMod p)
    (coeff_tail : List (ZMod p)) (id_kfrag y : ZMod p) :
    (kfrag_of params priv_a pub_b x coeff_tail id_kfrag y).point_commitment
      = params.u * (kfrag_of params priv_a pub_b x coeff_tail id_kfrag y).bn_key := rfl

theorem kfrag_of_bn_sig1 (params : UmbralParameters p) (priv_a pub_b x : ZMod p)
    (coeff_tail : List (ZMod p)) (id_kfrag y : ZMod p) :
    (kfrag_of params priv_a pub_b x coeff_tail id_kfrag y).bn_sig1
      = params.hash_to_bn
          [.pt (g p * y), .bn id_kfrag, .pt (g p * priv_a), .pt pub_b,
           .pt (kfrag_of params priv_a pub_b x coeff_tail id_kfrag y).point_commitment,
           .pt (g p * x)] := rfl

theorem kfrag_of_bn_sig2 (params : UmbralParameters p) (priv_a pub_b x : ZMod p)
    (coeff_tail : List (ZMod p)) (id_kfrag y : ZMod p) :
    (kfrag_of params priv_a pub_b x coeff_tail id_kfrag y).bn_sig2
      = y - priv_a * (kfrag_of params priv_a pub_b x coeff_tail id_kfrag y).bn_sig1 := rfl

/-! ### poly_eval lemmas -/

theorem poly_eval_nil (x : ZMod p) : poly_eval [] x = 0 := rfl

theorem poly_eval_cons (a : ZMod p) (l : List (ZMod p)) (x : ZMod p) :
    poly_eval (a :: l) x = a + x * poly_eval l x := rfl

theorem poly_eval_zero (a : ZMod p) (l : List (ZMod p)) :
    poly_eval (a :: l) 0 = a := by
  rw [poly_eval_cons]; ring

theorem poly_eval_map_mul (c : ZMod p) (l : List (ZMod p)) (x : ZMod p) :
    poly_eval (l.map (fun a => c * a)) x = c * poly_eval l x := by
  induction l with
  | nil => simp [poly_eval_nil]
  | cons a t ih => rw [List.map_cons, poly_eval_cons, poly_eval_cons, ih]; ring

/-! ### C10 — is_consistent -/

/-- The running state of the `is_consistent` loop computes
`r + w * f(id)` on the remaining coefficient list. -/
theorem is_consistent_loop (l : List (ZMod p)) (i : ZMod p) :
    ∀ r w : ZMod p,
      (l.foldl (fun (st : ZMod p × ZMod p) v => (st.1 + v * st.2, st.2 * i)) (r, w)).1
        = r + w * poly_eval l i := by
  induction l with
  | nil => intro r w; simp [poly_eval_nil]
  | cons a t ih =>
    intro r w
    rw [List.foldl_cons, ih, poly_eval_cons]
    ring

/-- C10: every kfrag produced by `split_rekey` is consistent with the
returned verification keys (`h * rk = Σ_j vKeys[j] * id^j`), while
`is_consistent` on a `None` or empty `vKeys` raises `ValueError` instead
of returning a result. -/
theorem is_consistent_split_rekey (params : UmbralParameters p)
    (priv_a pub_b x : ZMod p) (coeff_tail : List (ZMod p))
    (shares_rand : List (ZMod p × ZMod p)) (k : KFrag p)
    (hk : k ∈ (split_rekey params priv_a pub_b x coeff_tail shares_rand).1) :
    k.is_consistent (some (split_rekey params priv_a pub_b x coeff_tail shares_rand).2)
        params = .ok true
    ∧ k.is_consistent none params = .error (.valueError "vKeys must not be empty")
    ∧ k.is_consistent (some []) params = .error (.valueError "vKeys must not be empty") := by
  refine ⟨?_, rfl, rfl⟩
  have hkey := (split_rekey_fields params priv_a pub_b x coeff_tail shares_rand k hk).1
  simp only [split_rekey, List.map_cons, KFrag.is_consistent]
  rw [is_consistent_loop, poly_eval_map_mul]
  rw [show (Except.ok true : Except UErr Bool) = .ok (decide True) by simp]
  congr 1
  rw [decide_eq_decide]
  rw [hkey, poly_eval_cons]
  constructor
  · intro _; trivial
  · intro _; ring

/-! ### C3 — kfrag verification and tamper detection -/

/-- C3: a kfrag generated by `split_rekey` passes `KFrag.verify(pub_a,
pub_b, params)`; and, provided the hash separates the relevant inputs
(hypotheses `h5`, `h1`, `hfix`, which hold with overwhelming probability
for the BLAKE2b-based `hash_to_bn` and are checked concretely in the
witness), altering the commitment point or either signature scalar makes
`verify` return `false`. -/
theorem kfrag_verify_tamper (params : UmbralParameters p)
    (priv_a pub_b x : ZMod p) (coeff_tail : List (ZMod p)) (id_kfrag y : ZMod p)
    (h5 : ∀ w w' : ZMod p,
      params.hash_to_bn [.pt (g p * y), .bn id_kfrag, .pt (g p * priv_a),
          .pt pub_b, .pt w, .pt (g p * x)]
        = params.hash_to_bn [.pt (g p * y), .bn id_kfrag, .pt (g p * priv_a),
          .pt pub_b, .pt w', .pt (g p * x)] → w = w')
    (h1 : ∀ w w' : ZMod p,
      params.hash_to_bn [.pt w, .bn id_kfrag, .pt (g p * priv_a), .pt pub_b,
          .pt (kfrag_of params priv_a pub_b x coeff_tail id_kfrag y).point_commitment,
          .pt (g p * x)]
        = params.hash_to_bn [.pt w', .bn id_kfrag, .pt (g p * priv_a), .pt pub_b,
          .pt (kfrag_of params priv_a pub_b x coeff_tail id_kfrag y).point_commitment,
          .pt (g p * x)] → w = w')
    (hfix : ∀ w : ZMod p,
      w = params.hash_to_bn
          [.pt (g p * (kfrag_of params priv_a pub_b x coeff_tail id_kfrag y).bn_sig2
              + (g p * priv_a) * w),
           .bn id_kfrag, .pt (g p * priv_a), .pt pub_b,
           .pt (kfrag_of params priv_a pub_b x coeff_tail id_kfrag y).point_commitment,
           .pt (g p * x)]
        → w = (kfrag_of params priv_a pub_b x coeff_tail id_kfrag y).bn_sig1) :
    (kfrag_of params priv_a pub_b x coeff_tail id_kfrag y)
        ∈ (split_rekey params priv_a pub_b x coeff_tail [(id_kfrag, y)]).1
    ∧ (kfrag_of params priv_a pub_b x coeff_tail id_kfrag y).verify
        (g p * priv_a) pub_b params = true
    ∧ (∀ u1', u1' ≠ (kfrag_of params priv_a pub_b x coeff_tail id_kfrag y).point_commitment →
        KFrag.verify
          { kfrag_of params priv_a pub_b x coeff_tail id_kfrag y with point_commitment := u1' }
          (g p * priv_a) pub_b params = false)
    ∧ (∀ z1', z1' ≠ (kfrag_of params priv_a pub_b x coeff_tail id_kfrag y).bn_sig1 →
        KFrag.verify
          { kfrag_of params priv_a pub_b x coeff_tail id_kfrag y with bn_sig1 := z1' }
          (g p * priv_a) pub_b params = false)
    ∧ (∀ z2', z2' ≠ (kfrag_of params priv_a pub_b x coeff_tail id_kfrag y).bn_sig2 →
        KFrag.verify
          { kfrag_of params priv_a pub_b x coeff_tail id_kfrag y with bn_sig2 := z2' }
          (g p * priv_a) pub_b params = false) := by
  set kf := kfrag_of params priv_a pub_b x coeff_tail id_kfrag y with hkf
  have hid : kf.bn_id = id_kfrag := rfl
  have hni : kf.point_eph_ni = g p * x := rfl
  have hgy : g p * kf.bn_sig2 + (g p * priv_a) * kf.bn_sig1 = g p * y := by
    rw [kfrag_of_bn_sig2]
    simp only [g]
    ring
  have hz1 : kf.bn_sig1
      = params.hash_to_bn [.pt (g p * y), .bn id_kfrag, .pt (g p * priv_a),
          .pt pub_b, .pt kf.point_commitment, .pt (g p * x)] :=
    kfrag_of_bn_sig1 params priv_a pub_b x coeff_tail id_kfrag y
  refine ⟨?_, ?_, ?_, ?_, ?_⟩
  · simp [split_rekey]
  · simp only [KFrag.verify, decide_eq_true_eq]
    rw [hid, hni, hgy]
    exact hz1
  · intro u1' hne
    by_contra hver
    rw [Bool.not_eq_false] at hver
    simp only [KFrag.verify, decide_eq_true_eq] at hver
    rw [hid, hni, hgy] at hver
    exact hne (h5 u1' kf.point_commitment (hver.symm.trans hz1))
  · intro z1' hne
    by_contra hver
    rw [Bool.not_eq_false] at hver
    simp only [KFrag.verify, decide_eq_true_eq] at hver
    rw [hid, hni] at hver
    exact hne (hfix z1' hver)
  · intro z2' hne
    by_contra hver
    rw [Bool.not_eq_false] at hver
    simp only [KFrag.verify, decide_eq_true_eq] at hver
    rw [hid, hni] at hver
    have heq : g p * z2' + (g p * priv_a) * kf.bn_sig1
        = g p * kf.bn_sig2 + (g p * priv_a) * kf.bn_sig1 := by
      apply h1
      rw [← hver, hgy]
      exact hz1.symm
    have hgz : g p * z2' = g p * kf.bn_sig2 := add_right_cancel heq
    apply hne
    simpa [g] using hgz

/-! ### Lagrange interpolation at 0 for list-based polynomials -/

theorem listPoly_nil : listPoly ([] : List (ZMod p)) = 0 := by
  simp [listPoly]

theorem listPoly_cons (a : ZMod p) (l : List (ZMod p)) :
    listPoly (a :: l) = Polynomial.C a + listPoly l * Polynomial.X := by
  have h : listPoly l * Polynomial.X
      = ∑ i : Fin l.length, Polynomial.C (l.get i) * Polynomial.X ^ ((i : ℕ) + 1) := by
    rw [listPoly, Finset.sum_mul]
    refine Finset.sum_congr rfl (fun i _ => ?_)
    rw [pow_succ, mul_assoc]
  rw [show listPoly (a :: l)
      = ∑ i : Fin (l.length + 1), Polynomial.C ((a :: l).get i) * Polynomial.X ^ (i : ℕ)
      from rfl]
  rw [Fin.sum_univ_succ, h]
  simp

theorem eval_listPoly (l : List (ZMod p)) (x : ZMod p) :
    (listPoly l).eval x = poly_eval l x := by
  induction l with
  | nil => simp [listPoly_nil, poly_eval_nil]
  | cons a t ih =>
    rw [listPoly_cons, poly_eval_cons, Polynomial.eval_add, Polynomial.eval_C,
      Polynomial.eval_mul, Polynomial.eval_X, ih]
    ring

theorem degree_listPoly (l : List (ZMod p)) :
    (listPoly l).degree < (l.length : ℕ) :=
  Polynomial.degree_sum_fin_lt _

/-- Lagrange coefficients against Mathlib's `Lagrange.basis` evaluated
at `0`. -/
theorem lambda_coeff_eq_basis [Fact p.Prime] (ids : List (ZMod p))
    (hnd : ids.Nodup) (i : ZMod p) :
    lambda_coeff i ids = (Lagrange.basis ids.toFinset id i).eval 0 := by
  rw [Lagrange.basis, Polynomial.eval_prod]
  have herase : ids.toFinset.erase i = (ids.filter (fun x => x ≠ i)).toFinset := by
    ext a
    simp [List.mem_filter, and_comm]
  rw [herase, List.prod_toFinset _ (hnd.filter _), lambda_coeff]
  congr 1
  refine List.map_congr_left (fun j hj => ?_)
  have hji : j ≠ i := by
    have := List.of_mem_filter hj
    simpa using this
  simp only [Lagrange.basisDivisor, Polynomial.eval_mul, Polynomial.eval_C,
    Polynomial.eval_sub, Polynomial.eval_X, id]
  rw [bn_inv_eq_inv _ (sub_ne_zero.mpr hji),
    show (i - j : ZMod p) = -(j - i) by ring, inv_neg]
  ring

/-- Interpolation at `0`: with pairwise-distinct nodes `ids`, at least as
many of them as there are coefficients, the Lagrange combination of the
polynomial's values recovers its constant term. -/
theorem lagrange_list [Fact p.Prime] (coeffs ids : List (ZMod p))
    (hnd : ids.Nodup) (hlen : coeffs.length ≤ ids.length) :
    (ids.map (fun i => lambda_coeff i ids * poly_eval coeffs i)).sum
      = poly_eval coeffs 0 := by
  classical
  set f := listPoly coeffs with hf
  have hvs : Set.InjOn id (ids.toFinset : Set (ZMod p)) := fun a _ b _ h => h
  have hdeg : f.degree < (ids.toFinset.card : ℕ) := by
    rw [List.toFinset_card_of_nodup hnd]
    exact lt_of_lt_of_le (degree_listPoly coeffs) (Nat.cast_le.mpr hlen)
  have hinterp : listPoly coeffs
      = Lagrange.interpolate ids.toFinset id (fun i => (listPoly coeffs).eval (id i)) :=
    Lagrange.eq_interpolate hvs hdeg
  have heval := congrArg (Polynomial.eval 0) hinterp
  rw [Lagrange.interpolate_apply, Polynomial.eval_finset_sum] at heval
  rw [← eval_listPoly coeffs 0, ← hf, heval]
  rw [← List.sum_toFinset _ hnd]
  refine Finset.sum_congr rfl (fun i hi => ?_)
  rw [Polynomial.eval_mul, Polynomial.eval_C, lambda_coeff_eq_basis ids hnd i, id,
    eval_listPoly]
  ring

/-! ### Reconstruction lemmas -/

theorem foldl_pair_sum (F G : ZMod p × CapsuleFrag p → ZMod p)
    (rest : List (ZMod p × CapsuleFrag p)) :
    ∀ ab : ZMod p × ZMod p,
      rest.foldl (fun acc pr => (acc.1 + F pr, acc.2 + G pr)) ab
        = (ab.1 + (rest.map F).sum, ab.2 + (rest.map G).sum) := by
  induction rest with
  | nil => intro ab; simp
  | cons r t ih =>
    intro ab
    rw [List.foldl_cons, ih, List.map_cons, List.map_cons, List.sum_cons, List.sum_cons]
    simp only [Prod.mk.injEq]
    constructor <;> ring

/-- `_reconstruct` on a nonempty cfrag dict computes the Lagrange
combination `Σ_i cfrag_i * λ_i` of the attached fragments (the single-
fragment branch agrees because `λ` over a single node is `1`), and takes
the precursor from the first fragment. -/
theorem reconstruct_eq (id_0 : ZMod p) (cfrag_0 : CapsuleFrag p)
    (rest : List (ZMod p × CapsuleFrag p)) :
    reconstruct ((id_0, cfrag_0) :: rest)
      = some
        ((((id_0, cfrag_0) :: rest).map (fun pr =>
            pr.2.point_eph_e1 * lambda_coeff pr.1 (((id_0, cfrag_0) :: rest).map Prod.fst))).sum,
         (((id_0, cfrag_0) :: rest).map (fun pr =>
            pr.2.point_eph_v1 * lambda_coeff pr.1 (((id_0, cfrag_0) :: rest).map Prod.fst))).sum,
         cfrag_0.point_eph_ni) := by
  cases rest with
  | nil =>
    simp only [reconstruct, List.isEmpty_nil, if_true, List.map_cons, List.map_nil,
      List.sum_cons, List.sum_nil, add_zero]
    have hlam : lambda_coeff id_0 [id_0] = 1 := by
      simp [lambda_coeff]
    rw [hlam, mul_one, mul_one]
  | cons r t =>
    simp only [reconstruct, List.isEmpty_cons, if_false, Bool.false_eq_true]
    rw [show (fun (acc : ZMod p × ZMod p) (pair : ZMod p × CapsuleFrag p) =>
          (acc.1 + pair.2.point_eph_e1
              * lambda_coeff pair.1 (((id_0, cfrag_0) :: r :: t).map Prod.fst),
           acc.2 + pair.2.point_eph_v1
              * lambda_coeff pair.1 (((id_0, cfrag_0) :: r :: t).map Prod.fst)))
        = (fun acc pr =>
          (acc.1 + (fun pr : ZMod p × CapsuleFrag p => pr.2.point_eph_e1
              * lambda_coeff pr.1 (((id_0, cfrag_0) :: r :: t).map Prod.fst)) pr,
           acc.2 + (fun pr : ZMod p × CapsuleFrag p => pr.2.point_eph_v1
              * lambda_coeff pr.1 (((id_0, cfrag_0) :: r :: t).map Prod.fst)) pr))
      from rfl]
    rw [foldl_pair_sum]
    simp only [List.map_cons, List.sum_cons, Option.some.injEq, Prod.mk.injEq]

/-- Variant of `reconstruct_eq` stated over the whole pair list. -/
theorem reconstruct_eq_of_cons (pairs : List (ZMod p × CapsuleFrag p))
    (id_0 : ZMod p) (cfrag_0 : CapsuleFrag p)
    (rest : List (ZMod p × CapsuleFrag p))
    (hp : pairs = (id_0, cfrag_0) :: rest) :
    reconstruct pairs
      = some
        ((pairs.map (fun pr =>
            pr.2.point_eph_e1 * lambda_coeff pr.1 (pairs.map Prod.fst))).sum,
         (pairs.map (fun pr =>
            pr.2.point_eph_v1 * lambda_coeff pr.1 (pairs.map Prod.fst))).sum,
         cfrag_0.point_eph_ni) := by
  subst hp
  exact reconstruct_eq id_0 cfrag_0 rest

/-- Attaching cfrags with pairwise-fresh ids onto the dict appends them
in order. -/
theorem foldl_attach (cl : List (CapsuleFrag p)) :
    ∀ acc : List (ZMod p × CapsuleFrag p),
      (acc.map Prod.fst ++ cl.map CapsuleFrag.bn_kfrag_id).Nodup →
      cl.foldl attach_cfrag acc = acc ++ cl.map (fun c => (c.bn_kfrag_id, c)) := by
  induction cl with
  | nil => intro acc _; simp
  | cons c t ih =>
    intro acc hnd
    have hnotmem : c.bn_kfrag_id ∉ acc.map Prod.fst := by
      rw [List.nodup_append] at hnd
      intro hmem
      exact hnd.2.2 hmem (by simp)
    have hattach : attach_cfrag acc c = acc ++ [(c.bn_kfrag_id, c)] := by
      rw [attach_cfrag, if_neg]
      simp only [List.any_eq_true, not_exists, not_and]
      intro kv hkv
      intro heq
      rw [decide_eq_true_eq] at heq
      exact hnotmem (heq ▸ List.mem_map_of_mem Prod.fst hkv)
    rw [List.foldl_cons, hattach, ih]
    · rw [List.append_assoc]
      rfl
    · rw [List.map_append, List.append_assoc]
      simpa using hnd

/-- On a verifying capsule the proxy loop succeeds and attaches the
honest cfrags. -/
theorem reencrypt_and_attach_ok (params : UmbralParameters p)
    (capsule : Capsule p) (hv : capsule.verify params = true)
    (kfrags : List (KFrag p)) :
    reencrypt_and_attach params capsule kfrags
      = .ok (kfrags.foldl
          (fun st k => attach_cfrag st
            { point_eph_e1 := capsule.point_eph_e * k.bn_key,
              point_eph_v1 := capsule.point_eph_v * k.bn_key,
              bn_kfrag_id := k.bn_id,
              point_eph_ni := k.point_eph_ni })
          []) := by
  rw [reencrypt_and_attach]
  generalize ([] : List (ZMod p × CapsuleFrag p)) = st
  induction kfrags generalizing st with
  | nil => rfl
  | cons k t ih =>
    rw [List.foldlM_cons, List.foldl_cons, reencrypt_of_verify params k capsule hv]
    exact ih _

/-- `_decapsulate_reencrypted` on an honestly reconstructed capsule:
with `E' = E * (a * bn_inv d)` and `V' = V * (a * bn_inv d)`, the internal
correctness assert passes and the derived key is the KDF of
`pk_A * (priv_r + priv_u)`, i.e. the encapsulated key. -/
theorem decapsulate_reencrypted_correct [Fact p.Prime]
    (params : UmbralParameters p) (priv_a priv_b x priv_r priv_u d : ZMod p)
    (hd : d ≠ 0)
    (hdd : params.hash_to_bn
      [.pt (g p * x), .pt (g p * priv_b), .pt ((g p * x) * priv_b)] = d) :
    decapsulate_reencrypted params (g p * priv_b) priv_b (g p * priv_a)
      { point_eph_e := g p * priv_r,
        point_eph_v := g p * priv_u,
        bn_sig := priv_u + priv_r
          * params.hash_to_bn [.pt (g p * priv_r), .pt (g p * priv_u)],
        point_eph_e_prime := (g p * priv_r) * (priv_a * bn_inv d),
        point_eph_v_prime := (g p * priv_u) * (priv_a * bn_inv d),
        point_noninteractive := g p * x }
      = .ok (params.kdf ((g p * priv_a) * (priv_r + priv_u))) := by
  rw [decapsulate_reencrypted]
  simp only [hdd, bn_inv_eq_inv d hd]
  rw [if_pos]
  · refine congrArg Except.ok (congrArg params.kdf ?_)
    have hd1 : d⁻¹ * d = 1 := inv_mul_cancel₀ hd
    calc ((g p * priv_r) * (priv_a * d⁻¹) + (g p * priv_u) * (priv_a * d⁻¹)) * d
        = ((g p * priv_a) * (priv_r + priv_u)) * (d⁻¹ * d) := by simp only [g]; ring
      _ = (g p * priv_a) * (priv_r + priv_u) := by rw [hd1, mul_one]
  · simp only [g]
    ring

/-- C1: for any `t`-subset `sub` of the kfrags produced by
`split_rekey(priv_a, pub_b, t, N)` whose ids are pairwise distinct (they
are drawn at random) and with the derived blinding factor `d` nonzero
(`hash_to_bn` maps into `[1, n-1]`), re-encrypting a capsule produced by
`encapsulate(pub_a)` with each kfrag of `sub`, attaching the cfrags,
reconstructing, and calling `_decapsulate_reencrypted(pub_b, priv_b,
pub_a, capsule)` yields exactly the symmetric key that `encapsulate`
returned. -/
theorem threshold_decapsulation_correct [Fact p.Prime]
    (params : UmbralParameters p)
    (priv_a priv_b x priv_r priv_u : ZMod p)
    (coeff_tail : List (ZMod p)) (shares_rand : List (ZMod p × ZMod p))
    (sub : List (KFrag p))
    (hsub : ∀ k ∈ sub,
      k ∈ (split_rekey params priv_a (g p * priv_b) x coeff_tail shares_rand).1)
    (hnd : (sub.map KFrag.bn_id).Nodup)
    (hlen : sub.length = coeff_tail.length + 1)
    (hd : params.hash_to_bn
      [.pt (g p * x), .pt (g p * priv_b), .pt ((g p * priv_b) * x)] ≠ 0) :
    open_reencrypted params (g p * priv_b) priv_b (g p * priv_a)
        (encapsulate params (g p * priv_a) priv_r priv_u).2 sub
      = .ok (encapsulate params (g p * priv_a) priv_r priv_u).1 := by
  classical
  set pa := g p * priv_a with hpa
  set pb := g p * priv_b with hpb
  set cap := (encapsulate params pa priv_r priv_u).2 with hcap
  set d := params.hash_to_bn [.pt (g p * x), .pt pb, .pt (pb * x)] with hdef
  set coeffs := priv_a * bn_inv d :: coeff_tail with hcoeffs
  have hv : cap.verify params = true := encapsulate_verify params pa priv_r priv_u
  -- fields of the members of sub
  have hkey : ∀ k ∈ sub, k.bn_key = poly_eval coeffs k.bn_id := fun k hk =>
    (split_rekey_fields params priv_a pb x coeff_tail shares_rand k (hsub k hk)).1
  have hni : ∀ k ∈ sub, k.point_eph_ni = g p * x := fun k hk =>
    (split_rekey_fields params priv_a pb x coeff_tail shares_rand k (hsub k hk)).2
  -- Step 1: the proxy loop succeeds and attaches the honest cfrags
  rw [open_reencrypted, reencrypt_and_attach_ok params cap hv sub]
  -- Step 2: the attach fold appends pairs (id, cfrag) in order
  have hmapid : (sub.map (fun k =>
      ({ point_eph_e1 := cap.point_eph_e * k.bn_key,
         point_eph_v1 := cap.point_eph_v * k.bn_key,
         bn_kfrag_id := k.bn_id,
         point_eph_ni := k.point_eph_ni } : CapsuleFrag p))).map
        CapsuleFrag.bn_kfrag_id = sub.map KFrag.bn_id := by
    rw [List.map_map]; rfl
  have hattached : sub.foldl
      (fun st k => attach_cfrag st
        { point_eph_e1 := cap.point_eph_e * k.bn_key,
          point_eph_v1 := cap.point_eph_v * k.bn_key,
          bn_kfrag_id := k.bn_id,
          point_eph_ni := k.point_eph_ni }) []
      = sub.map (fun k =>
          (k.bn_id,
           ({ point_eph_e1 := cap.point_eph_e * k.bn_key,
              point_eph_v1 := cap.point_eph_v * k.bn_key,
              bn_kfrag_id := k.bn_id,
              point_eph_ni := k.point_eph_ni } : CapsuleFrag p))) := by
    rw [← List.foldl_map, foldl_attach]
    · rw [List.nil_append, List.map_map]; rfl
    · rw [List.map_nil, List.nil_append, hmapid]; exact hnd
  rw [hattached]
  -- Step 3: sub is nonempty; apply reconstruct_eq
  cases sub with
  | nil => exact absurd hlen (by simp)
  | cons k0 stail =>
  simp only [Except.bind]
  rw [reconstruct_eq_of_cons ((k0 :: stail).map (fun k =>
      ((k.bn_id : ZMod p),
        ({ point_eph_e1 := cap.point_eph_e * k.bn_key,
           point_eph_v1 := cap.point_eph_v * k.bn_key,
           bn_kfrag_id := k.bn_id,
           point_eph_ni := k.point_eph_ni } : CapsuleFrag p))))
    k0.bn_id
    ({ point_eph_e1 := cap.point_eph_e * k0.bn_key,
       point_eph_v1 := cap.point_eph_v * k0.bn_key,
       bn_kfrag_id := k0.bn_id,
       point_eph_ni := k0.point_eph_ni } : CapsuleFrag p)
    (stail.map (fun k =>
      ((k.bn_id : ZMod p),
        ({ point_eph_e1 := cap.point_eph_e * k.bn_key,
           point_eph_v1 := cap.point_eph_v * k.bn_key,
           bn_kfrag_id := k.bn_id,
           point_eph_ni := k.point_eph_ni } : CapsuleFrag p))))
    (by rfl)]
  simp only [Option.elim]
  -- Step 4: evaluate the Lagrange sums
  have hids : ((k0 :: stail).map (fun k =>
      ((k.bn_id : ZMod p),
        ({ point_eph_e1 := cap.point_eph_e * k.bn_key,
           point_eph_v1 := cap.point_eph_v * k.bn_key,
           bn_kfrag_id := k.bn_id,
           point_eph_ni := k.point_eph_ni } : CapsuleFrag p)))).map Prod.fst
      = (k0 :: stail).map KFrag.bn_id := by
    rw [List.map_map]; rfl
  rw [hids]
  have hlen' : coeffs.length ≤ ((k0 :: stail).map KFrag.bn_id).length := by
    rw [List.length_map, hcoeffs, List.length_cons, ← hlen]
  have hlag := lagrange_list coeffs ((k0 :: stail).map KFrag.bn_id) hnd hlen'
  have hsumE : (((k0 :: stail).map (fun k =>
      ((k.bn_id : ZMod p),
        ({ point_eph_e1 := cap.point_eph_e * k.bn_key,
           point_eph_v1 := cap.point_eph_v * k.bn_key,
           bn_kfrag_id := k.bn_id,
           point_eph_ni := k.point_eph_ni } : CapsuleFrag p)))).map
        (fun pr => pr.2.point_eph_e1
          * lambda_coeff pr.1 ((k0 :: stail).map KFrag.bn_id))).sum
      = cap.point_eph_e * (priv_a * bn_inv d) := by
    rw [List.map_map]
    rw [show ((fun pr : ZMod p × CapsuleFrag p => pr.2.point_eph_e1
          * lambda_coeff pr.1 ((k0 :: stail).map KFrag.bn_id))
        ∘ (fun k : KFrag p =>
          ((k.bn_id : ZMod p),
            ({ point_eph_e1 := cap.point_eph_e * k.bn_key,
               point_eph_v1 := cap.point_eph_v * k.bn_key,
               bn_kfrag_id := k.bn_id,
               point_eph_ni := k.point_eph_ni } : CapsuleFrag p))))
        = (fun k : KFrag p => cap.point_eph_e
            * (lambda_coeff k.bn_id ((k0 :: stail).map KFrag.bn_id) * k.bn_key))
      from funext (fun k => by
        show cap.point_eph_e * k.bn_key
            * lambda_coeff k.bn_id ((k0 :: stail).map KFrag.bn_id)
          = cap.point_eph_e
            * (lambda_coeff k.bn_id ((k0 :: stail).map KFrag.bn_id) * k.bn_key)
        ring)]
    rw [List.sum_map_mul_left]
    rw [List.map_congr_left (fun k hk => by rw [hkey k hk])]
    rw [show ((k0 :: stail).map (fun k =>
          lambda_coeff k.bn_id ((k0 :: stail).map KFrag.bn_id)
            * poly_eval coeffs k.bn_id))
        = (((k0 :: stail).map KFrag.bn_id).map (fun i => lambda_coeff i
            ((k0 :: stail).map KFrag.bn_id) * poly_eval coeffs i)) from by
      rw [List.map_map]
      rfl]
    rw [hlag, hcoeffs, poly_eval_zero]
  have hsumV : (((k0 :: stail).map (fun k =>
      ((k.bn_id : ZMod p),
        ({ point_eph_e1 := cap.point_eph_e * k.bn_key,
           point_eph_v1 := cap.point_eph_v * k.bn_key,
           bn_kfrag_id := k.bn_id,
           point_eph_ni := k.point_eph_ni } : CapsuleFrag p)))).map
        (fun pr => pr.2.point_eph_v1
          * lambda_coeff pr.1 ((k0 :: stail).map KFrag.bn_id))).sum
      = cap.point_eph_v * (priv_a * bn_inv d) := by
    rw [List.map_map]
    rw [show ((fun pr : ZMod p × CapsuleFrag p => pr.2.point_eph_v1
          * lambda_coeff pr.1 ((k0 :: stail).map KFrag.bn_id))
        ∘ (fun k : KFrag p =>
          ((k.bn_id : ZMod p),
            ({ point_eph_e1 := cap.point_eph_e * k.bn_key,
               point_eph_v1 := cap.point_eph_v * k.bn_key,
               bn_kfrag_id := k.bn_id,
               point_eph_ni := k.point_eph_ni } : CapsuleFrag p))))
        = (fun k : KFrag p => cap.point_eph_v
            * (lambda_coeff k.bn_id ((k0 :: stail).map KFrag.bn_id) * k.bn_key))
      from funext (fun k => by
        show cap.point_eph_v * k.bn_key
            * lambda_coeff k.bn_id ((k0 :: stail).map KFrag.bn_id)
          = cap.point_eph_v
            * (lambda_coeff k.bn_id ((k0 :: stail).map KFrag.bn_id) * k.bn_key)
        ring)]
    rw [List.sum_map_mul_left]
    rw [List.map_congr_left (fun k hk => by rw [hkey k hk])]
    rw [show ((k0 :: stail).map (fun k =>
          lambda_coeff k.bn_id ((k0 :: stail).map KFrag.bn_id)
            * poly_eval coeffs k.bn_id))
        = (((k0 :: stail).map KFrag.bn_id).map (fun i => lambda_coeff i
            ((k0 :: stail).map KFrag.bn_id) * poly_eval coeffs i)) from by
      rw [List.map_map]
      rfl]
    rw [hlag, hcoeffs, poly_eval_zero]
  rw [hsumE, hsumV]
  -- Step 5: the final decapsulation
  have hni0 : k0.point_eph_ni = g p * x := hni k0 (by simp)
  have hcape : cap.point_eph_e = g p * priv_r := rfl
  have hcapv : cap.point_eph_v = g p * priv_u := rfl
  have hcaps : cap.bn_sig = priv_u + priv_r
      * params.hash_to_bn [.pt (g p * priv_r), .pt (g p * priv_u)] := rfl
  rw [show ((encapsulate params pa priv_r priv_u).1 : ℕ)
      = params.kdf (pa * (priv_r + priv_u)) from rfl]
  rw [hni0, hcape, hcapv, hcaps, hpa, hpb]
  exact decapsulate_reencrypted_correct params priv_a priv_b x priv_r priv_u d hd
    (by rw [hdef, hpb]; congr 2; simp only [g]; ring)

/-! ### C4 — check_challenge omits the V equation -/

/-- C4 (the code evaluated at the failing input): `check_challenge`
accepts the doctored response `ch13` even though the spec's equation
`z·V == V2 + h·V1` fails on it — the code checks the kfrag signature and
the `E` and `U` equations but never the `V` equation. -/
theorem check_challenge_accepts_bad_v :
    reencrypt P13 kf13 cap13 = .ok cf13
    ∧ check_challenge P13 cap13 cf13 ch13 (g 13 * 2) 3 = true
    ∧ cap13.point_eph_v * ch13.bn_sig
        ≠ ch13.point_eph_v2 + cf13.point_eph_v1 * h13 := by decide

/-! ### C5 — the polynomial is evaluated at the raw kfrag id -/

/-- C5 counterexample: the re-encryption key share of the concrete kfrag
`kf13` is the Shamir polynomial evaluated at the raw id, and differs from
the polynomial evaluated at the spec's hashed x-coordinate. -/
theorem split_rekey_key_not_at_hashed_x :
    kf13.bn_key = poly_eval
        (2 * bn_inv (P13.hash_to_bn [.pt (g 13 * 5), .pt 3, .pt (3 * 5)]) :: [6])
        kf13.bn_id
    ∧ kf13.bn_key ≠ poly_eval
        (2 * bn_inv (P13.hash_to_bn [.pt (g 13 * 5), .pt 3, .pt (3 * 5)]) :: [6])
        (xcoordinate_hash P13 4 (g 13 * 2) 3 (g 13 * 5)) := by decide

/-- C5 amended: every re-encryption key share `rk_i` of `split_rekey`
equals the secret polynomial `f` — with `threshold` coefficients, i.e.
degree `threshold - 1`, and `f(0) = sk_A * bn_inv d` — evaluated directly at
the kfrag id `id_i` (no hashed x-coordinate is involved). -/
theorem split_rekey_rk_eq_poly_at_id (params : UmbralParameters p)
    (priv_a pub_b x : ZMod p) (coeff_tail : List (ZMod p))
    (shares_rand : List (ZMod p × ZMod p)) (k : KFrag p)
    (hk : k ∈ (split_rekey params priv_a pub_b x coeff_tail shares_rand).1) :
    k.bn_key = poly_eval (priv_a * bn_inv (params.hash_to_bn
        [.pt (g p * x), .pt pub_b, .pt (pub_b * x)]) :: coeff_tail) k.bn_id
    ∧ poly_eval (priv_a * bn_inv (params.hash_to_bn
        [.pt (g p * x), .pt pub_b, .pt (pub_b * x)]) :: coeff_tail) 0
      = priv_a * bn_inv (params.hash_to_bn
        [.pt (g p * x), .pt pub_b, .pt (pub_b * x)])
    ∧ (priv_a * bn_inv (params.hash_to_bn
        [.pt (g p * x), .pt pub_b, .pt (pub_b * x)]) :: coeff_tail).length
      = coeff_tail.length + 1 :=
  ⟨(split_rekey_fields params priv_a pub_b x coeff_tail shares_rand k hk).1,
   poly_eval_zero _ _, rfl⟩

theorem split_rekey_rk_eq_poly_at_id_witness :
    (kf13 ∈ (split_rekey P13 2 3 5 [6] [(4, 7)]).1)
    ∧ kf13.bn_key = poly_eval (2 * bn_inv (P13.hash_to_bn
        [.pt (g 13 * 5), .pt 3, .pt (3 * 5)]) :: [6]) kf13.bn_id :=
  ⟨by decide,
   (split_rekey_rk_eq_poly_at_id P13 2 3 5 [6] [(4, 7)] kf13 (by decide)).1⟩

/-! ### C6 — attach_cfrag and _reconstruct perform no checks -/

/-- C6 counterexample: attaching a second cfrag with the same id
silently overwrites the first (no `RepeatedId`), and `_reconstruct`
happily combines cfrags whose precursors disagree (`7` vs `9`), using
the first cfrag's precursor (no `MismatchedCfrags`). -/
theorem attach_reconstruct_counterexample :
    attach_cfrag (attach_cfrag [] (⟨1, 2, 1, 7⟩ : CapsuleFrag 13)) ⟨3, 4, 1, 9⟩
      = [(1, (⟨3, 4, 1, 9⟩ : CapsuleFrag 13))]
    ∧ reconstruct
        [((1 : ZMod 13), (⟨1, 2, 1, 7⟩ : CapsuleFrag 13)), (2, ⟨3, 4, 2, 9⟩)]
      = some (12, 0, 7) := by decide

/-- C6 amended: `attach_cfrag` stores cfrags in a dict keyed by kfrag
id, so attaching a cfrag whose id is already present replaces the stored
entry (the dict size does not grow) instead of raising `RepeatedId`; and
`_reconstruct` succeeds on any nonempty cfrag dict, taking the precursor
of the first cfrag without comparing precursors, instead of raising
`MismatchedCfrags`. -/
theorem attach_overwrites_reconstruct_unchecked
    (st : List (ZMod p × CapsuleFrag p)) (cf : CapsuleFrag p)
    (hmem : cf.bn_kfrag_id ∈ st.map Prod.fst)
    (i0 : ZMod p) (c0 : CapsuleFrag p) (rest : List (ZMod p × CapsuleFrag p)) :
    (attach_cfrag st cf).length = st.length
    ∧ ∃ e v, reconstruct ((i0, c0) :: rest) = some (e, v, c0.point_eph_ni) := by
  constructor
  · rw [attach_cfrag, if_pos, List.length_map]
    obtain ⟨kv, hkv, hfst⟩ := List.mem_map.mp hmem
    simp only [List.any_eq_true, decide_eq_true_eq]
    exact ⟨kv, hkv, hfst⟩
  · exact ⟨_, _, reconstruct_eq i0 c0 rest⟩

theorem attach_overwrites_reconstruct_unchecked_witness :
    ((1 : ZMod 13) ∈ ([((1 : ZMod 13), (⟨1, 2, 1, 7⟩ : CapsuleFrag 13))].map Prod.fst))
    ∧ (attach_cfrag [((1 : ZMod 13), (⟨1, 2, 1, 7⟩ : CapsuleFrag 13))]
        ⟨3, 4, 1, 9⟩).length = 1
    ∧ ∃ e v, reconstruct
        [((5 : ZMod 13), (⟨1, 2, 1, 7⟩ : CapsuleFrag 13)), (2, ⟨3, 4, 2, 9⟩)]
      = some (e, v, 7) := by
  have H := attach_overwrites_reconstruct_unchecked
    [((1 : ZMod 13), (⟨1, 2, 1, 7⟩ : CapsuleFrag 13))]
    (⟨3, 4, 1, 9⟩ : CapsuleFrag 13) (by decide)
    5 ⟨1, 2, 1, 7⟩ [(2, ⟨3, 4, 2, 9⟩)]
  exact ⟨by decide, H.1, H.2⟩

/-! ### C8 — from_bytes and trailing or short input -/

/-- Slices entirely inside the first list ignore anything appended. -/
theorem pyslice_append_of_le (data extra : List ℕ) (a b : ℕ)
    (ha : a ≤ data.length) (hb : b ≤ data.length) :
    pyslice (data ++ extra) a b = pyslice data a b := by
  rw [pyslice, pyslice, List.drop_append_of_le_length ha,
    List.take_append_of_le_length]
  rw [List.length_drop]
  omega

/-- C8 counterexample: `KFrag.from_bytes` on a 195-byte input parses
successfully (here with component parsers that accept their slices) and
returns the same result as on the 194-byte prefix — the trailing byte is
silently ignored, not rejected with an error. -/
theorem kfrag_from_bytes_ignores_trailing :
    KFrag_from_bytes (fun l => Except.ok l) (fun l => Except.ok l)
        (List.replicate 195 0)
      = KFrag_from_bytes (fun l => Except.ok l) (fun l => Except.ok l)
        (List.replicate 194 0)
    ∧ KFrag_from_bytes (fun l => Except.ok l) (fun l => Except.ok l)
        (List.replicate 195 0)
      = Except.ok (List.replicate 32 0, List.replicate 32 0,
          List.replicate 33 0, List.replicate 33 0,
          List.replicate 32 0, List.replicate 32 0) := by decide

/-- C8 amended: `Serializable.from_bytes` (serializable.py) rejects any
nonzero remainder with `ValueError` and `__take_bytes__` rejects short
input with `ValueError`; but `KFrag.from_bytes` and
`CapsuleFrag.from_bytes` (umbral.py) read fixed-offset slices only, so
any bytes beyond their 194- resp. 131-byte layout are silently ignored,
whatever the component parsers do. -/
theorem from_bytes_trailing_and_short :
    (∀ (γ δ : Type) (Bn : List ℕ → Except UErr γ) (Pt : List ℕ → Except UErr δ)
      (data extra : List ℕ), 194 ≤ data.length →
      KFrag_from_bytes Bn Pt (data ++ extra) = KFrag_from_bytes Bn Pt data)
    ∧ (∀ (γ δ : Type) (Bn : List ℕ → Except UErr γ) (Pt : List ℕ → Except UErr δ)
      (data extra : List ℕ), 131 ≤ data.length →
      CapsuleFrag_from_bytes Bn Pt (data ++ extra) = CapsuleFrag_from_bytes Bn Pt data)
    ∧ (∀ (γ : Type) (take_ : List ℕ → Except UErr (γ × List ℕ))
      (data rem : List ℕ) (obj : γ), take_ data = .ok (obj, rem) → rem ≠ [] →
      Serializable_from_bytes take_ data
        = .error (.valueError "bytes remaining after deserializing"))
    ∧ (∀ (data : List ℕ) (size : ℕ), data.length < size →
      take_bytes data size = .error (.valueError "cannot take bytes")) := by
  refine ⟨?_, ?_, ?_, ?_⟩
  · intro γ δ Bn Pt data extra hlen
    simp only [KFrag_from_bytes,
      pyslice_append_of_le data extra 0 32 (by omega) (by omega),
      pyslice_append_of_le data extra 32 64 (by omega) (by omega),
      pyslice_append_of_le data extra 64 97 (by omega) (by omega),
      pyslice_append_of_le data extra 97 130 (by omega) (by omega),
      pyslice_append_of_le data extra 130 162 (by omega) (by omega),
      pyslice_append_of_le data extra 162 194 (by omega) (by omega)]
  · intro γ δ Bn Pt data extra hlen
    simp only [CapsuleFrag_from_bytes,
      pyslice_append_of_le data extra 0 33 (by omega) (by omega),
      pyslice_append_of_le data extra 33 66 (by omega) (by omega),
      pyslice_append_of_le data extra 66 98 (by omega) (by omega),
      pyslice_append_of_le data extra 98 131 (by omega) (by omega)]
  · intro γ take_ data rem obj htake hrem
    have hlen0 : rem.length ≠ 0 := fun h0 => hrem (List.length_eq_zero.mp h0)
    rw [Serializable_from_bytes, htake]
    show (if rem.length ≠ 0 then
        (Except.error (UErr.valueError "bytes remaining after deserializing") : Except UErr γ)
      else Except.ok obj) = _
    rw [if_pos hlen0]
  · intro data size hshort
    rw [take_bytes, if_pos hshort]

theorem from_bytes_trailing_and_short_witness :
    (194 ≤ (List.replicate 194 (0 : ℕ)).length
      ∧ KFrag_from_bytes (fun l => Except.ok l) (fun l => Except.ok l)
          (List.replicate 194 0 ++ [7])
        = KFrag_from_bytes (fun l => Except.ok l) (fun l => Except.ok l)
          (List.replicate 194 0))
    ∧ ((fun l : List ℕ =>
          (Except.ok (l.take 1, l.drop 1) : Except UErr (List ℕ × List ℕ))) [5, 6]
          = .ok ([5], [6])
        ∧ ([6] : List ℕ) ≠ []
        ∧ Serializable_from_bytes
            (fun l : List ℕ =>
              (Except.ok (l.take 1, l.drop 1) : Except UErr (List ℕ × List ℕ))) [5, 6]
          = .error (.valueError "bytes remaining after deserializing"))
    ∧ (([0, 1] : List ℕ).length < 3
        ∧ take_bytes [0, 1] 3 = .error (.valueError "cannot take bytes")) :=
  ⟨⟨by decide, from_bytes_trailing_and_short.1 _ _ _ _ _ _ (by decide)⟩,
   ⟨rfl, by decide,
    from_bytes_trailing_and_short.2.2.1 _ _ [5, 6] [6] [5] rfl (by decide)⟩,
   ⟨by decide, from_bytes_trailing_and_short.2.2.2 [0, 1] 3 (by decide)⟩⟩

/-! ### C9 — Capsule serialization round trip and the missing return -/

theorem ok_bind {ε α β : Type} (a : α) (f : α → Except ε β) :
    (Except.ok a : Except ε α) >>= f = f a := rfl

theorem pure_eq_ok {ε α : Type} (a : α) :
    (pure a : Except ε α) = Except.ok a := rfl

/-- C9: for a capsule produced by `encapsulate`, `bytes(c)` returns
`None` because `Capsule.__bytes__` evaluates `self.to_bytes()` without
returning it (the missing-`return` slip), while the byte string built by
`to_bytes` itself deserializes via `from_original_bytes` back to the
capsule's three components (for any faithful point/scalar codecs), and
`c.verify()` is true. -/
theorem capsule_bytes_roundtrip (params : UmbralParameters p)
    (pub_key priv_r priv_u : ZMod p) (F G : ZMod p → List ℕ)
    (Pt Bn : List ℕ → Except UErr (ZMod p))
    (hF : ∀ z, (F z).length = 33) (hG : ∀ z, (G z).length = 32)
    (hPt : ∀ z, Pt (F z) = .ok z) (hBn : ∀ z, Bn (G z) = .ok z) :
    Capsule__bytes__ F G (encapsulate params pub_key priv_r priv_u).2 = none
    ∧ from_original_bytes Pt Bn
        (Capsule_to_bytes F G (encapsulate params pub_key priv_r priv_u).2)
      = .ok ((encapsulate params pub_key priv_r priv_u).2.point_eph_e,
             (encapsulate params pub_key priv_r priv_u).2.point_eph_v,
             (encapsulate params pub_key priv_r priv_u).2.bn_sig)
    ∧ (encapsulate params pub_key priv_r priv_u).2.verify params = true := by
  refine ⟨rfl, ?_, encapsulate_verify params pub_key priv_r priv_u⟩
  have hs1 : pyslice (Capsule_to_bytes F G (encapsulate params pub_key priv_r priv_u).2)
      0 33 = F (encapsulate params pub_key priv_r priv_u).2.point_eph_e := by
    simp [pyslice, Capsule_to_bytes, List.take_append_eq_append_take, hF,
      List.take_of_length_le]
  have hs2 : pyslice (Capsule_to_bytes F G (encapsulate params pub_key priv_r priv_u).2)
      33 66 = F (encapsulate params pub_key priv_r priv_u).2.point_eph_v := by
    simp [pyslice, Capsule_to_bytes, List.drop_append_eq_append_drop,
      List.take_append_eq_append_take, hF, hG, List.drop_eq_nil_of_le,
      List.take_of_length_le]
  have hs3 : pyslice (Capsule_to_bytes F G (encapsulate params pub_key priv_r priv_u).2)
      66 98 = G (encapsulate params pub_key priv_r priv_u).2.bn_sig := by
    simp [pyslice, Capsule_to_bytes, List.drop_append_eq_append_drop,
      List.take_append_eq_append_take, hF, hG, List.drop_eq_nil_of_le,
      List.take_of_length_le]
  rw [from_original_bytes, hs1, hs2, hs3]
  simp only [hPt, hBn, ok_bind, pure_eq_ok]

theorem capsule_bytes_roundtrip_witness :
    (∀ z : ZMod 13, ((fun w : ZMod 13 => List.replicate 32 0 ++ [w.val]) z).length = 33)
    ∧ (∀ z : ZMod 13, ((fun w : ZMod 13 => List.replicate 31 0 ++ [w.val]) z).length = 32)
    ∧ (∀ z : ZMod 13,
        (fun l : List ℕ =>
          (Except.ok ((l.getLastD 0 : ℕ) : ZMod 13) : Except UErr (ZMod 13)))
          ((fun w : ZMod 13 => List.replicate 32 0 ++ [w.val]) z) = .ok z)
    ∧ (∀ z : ZMod 13,
        (fun l : List ℕ =>
          (Except.ok ((l.getLastD 0 : ℕ) : ZMod 13) : Except UErr (ZMod 13)))
          ((fun w : ZMod 13 => List.replicate 31 0 ++ [w.val]) z) = .ok z)
    ∧ Capsule__bytes__ (fun w : ZMod 13 => List.replicate 32 0 ++ [w.val])
        (fun w : ZMod 13 => List.replicate 31 0 ++ [w.val])
        (encapsulate P13 (g 13 * 2) 3 1).2 = none
    ∧ from_original_bytes
        (fun l : List ℕ => Except.ok ((l.getLastD 0 : ℕ) : ZMod 13))
        (fun l : List ℕ => Except.ok ((l.getLastD 0 : ℕ) : ZMod 13))
        (Capsule_to_bytes (fun w : ZMod 13 => List.replicate 32 0 ++ [w.val])
          (fun w : ZMod 13 => List.replicate 31 0 ++ [w.val])
          (encapsulate P13 (g 13 * 2) 3 1).2)
      = .ok ((encapsulate P13 (g 13 * 2) 3 1).2.point_eph_e,
             (encapsulate P13 (g 13 * 2) 3 1).2.point_eph_v,
             (encapsulate P13 (g 13 * 2) 3 1).2.bn_sig)
    ∧ (encapsulate P13 (g 13 * 2) 3 1).2.verify P13 = true := by
  have H := capsule_bytes_roundtrip P13 (g 13 * 2) 3 1
    (fun w : ZMod 13 => List.replicate 32 0 ++ [w.val])
    (fun w : ZMod 13 => List.replicate 31 0 ++ [w.val])
    (fun l : List ℕ => Except.ok ((l.getLastD 0 : ℕ) : ZMod 13))
    (fun l : List ℕ => Except.ok ((l.getLastD 0 : ℕ) : ZMod 13))
    (by decide) (by decide) (by decide) (by decide)
  exact ⟨by decide, by decide, by decide, by decide, H.1, H.2.1, H.2.2⟩

/-! ### Remaining claim witnesses -/

theorem kfrag_verify_tamper_witness :
    (∀ w w' : ZMod 13,
      P13.hash_to_bn [.pt (g 13 * 7), .bn 4, .pt (g 13 * 2), .pt 3, .pt w, .pt (g 13 * 5)]
        = P13.hash_to_bn [.pt (g 13 * 7), .bn 4, .pt (g 13 * 2), .pt 3, .pt w', .pt (g 13 * 5)]
        → w = w')
    ∧ (∀ w w' : ZMod 13,
      P13.hash_to_bn [.pt w, .bn 4, .pt (g 13 * 2), .pt 3,
          .pt kf13.point_commitment, .pt (g 13 * 5)]
        = P13.hash_to_bn [.pt w', .bn 4, .pt (g 13 * 2), .pt 3,
          .pt kf13.point_commitment, .pt (g 13 * 5)]
        → w = w')
    ∧ (∀ w : ZMod 13,
      w = P13.hash_to_bn [.pt (g 13 * kf13.bn_sig2 + (g 13 * 2) * w), .bn 4,
          .pt (g 13 * 2), .pt 3, .pt kf13.point_commitment, .pt (g 13 * 5)]
        → w = kf13.bn_sig1)
    ∧ kf13.verify (g 13 * 2) 3 P13 = true
    ∧ KFrag.verify { kf13 with point_commitment := kf13.point_commitment + 1 }
        (g 13 * 2) 3 P13 = false := by
  have H := kfrag_verify_tamper P13 2 3 5 [6] 4 7 (by decide) (by decide) (by decide)
  exact ⟨by decide, by decide, by decide, H.2.1,
    H.2.2.1 (kf13.point_commitment + 1) (by decide)⟩

theorem threshold_decapsulation_correct_witness :
    (∀ k ∈ [kfrag_of P13 2 3 5 [6] 4 7, kfrag_of P13 2 3 5 [6] 8 9],
      k ∈ (split_rekey P13 2 (g 13 * 3) 5 [6] [(4, 7), (8, 9), (11, 6)]).1)
    ∧ (([kfrag_of P13 2 3 5 [6] 4 7, kfrag_of P13 2 3 5 [6] 8 9].map
        KFrag.bn_id).Nodup)
    ∧ ([kfrag_of P13 2 3 5 [6] 4 7, kfrag_of P13 2 3 5 [6] 8 9].length
        = ([6] : List (ZMod 13)).length + 1)
    ∧ P13.hash_to_bn [.pt (g 13 * 5), .pt (g 13 * 3), .pt ((g 13 * 3) * 5)] ≠ 0
    ∧ open_reencrypted P13 (g 13 * 3) 3 (g 13 * 2)
        (encapsulate P13 (g 13 * 2) 3 1).2
        [kfrag_of P13 2 3 5 [6] 4 7, kfrag_of P13 2 3 5 [6] 8 9]
      = .ok (encapsulate P13 (g 13 * 2) 3 1).1 :=
  ⟨by decide, by decide, by decide, by decide,
   threshold_decapsulation_correct P13 2 3 5 3 1 [6] [(4, 7), (8, 9), (11, 6)]
     [kfrag_of P13 2 3 5 [6] 4 7, kfrag_of P13 2 3 5 [6] 8 9]
     (by decide) (by decide) (by decide) (by decide)⟩

theorem reencrypt_spec_witness :
    (Capsule.verify ⟨1, 1, 1⟩ P13 = false)
    ∧ reencrypt P13 kf13 (⟨1, 1, 1⟩ : Capsule 13)
        = .error (.assertionError "Generic Umbral Error")
    ∧ reencrypt P13 kf13 cap13 = .ok cf13
    ∧ (cf13.point_eph_e1 = cap13.point_eph_e * kf13.bn_key
       ∧ cf13.point_eph_v1 = cap13.point_eph_v * kf13.bn_key
       ∧ cf13.bn_kfrag_id = kf13.bn_id
       ∧ cf13.point_eph_ni = kf13.point_eph_ni) :=
  ⟨by decide, (reencrypt_spec P13 kf13 ⟨1, 1, 1⟩).1.mpr (by decide), by decide,
   (reencrypt_spec P13 kf13 cap13).2 cf13 (by decide)⟩

theorem is_consistent_split_rekey_witness :
    (kf13 ∈ (split_rekey P13 2 3 5 [6] [(4, 7)]).1)
    ∧ kf13.is_consistent (some (split_rekey P13 2 3 5 [6] [(4, 7)]).2) P13 = .ok true
    ∧ kf13.is_consistent none P13 = .error (.valueError "vKeys must not be empty") :=
  ⟨by decide,
   (is_consistent_split_rekey P13 2 3 5 [6] [(4, 7)] kf13 (by decide)).1,
   (is_consistent_split_rekey P13 2 3 5 [6] [(4, 7)] kf13 (by decide)).2.1⟩

end Umbral
